import Mathlib

/-!
# A verification development of the r1 hybrid shuffle-storage core

Shallow embedding, in Lean, of the storage core of the `r1` remote shuffle
worker: the memory tier (budget / ticket / buffer accounting in
`src/store/memory.rs`), the hybrid tier-selection and spill orchestration
(`src/store/hybrid.rs`), the HDFS persistent tier (`src/store/hdfs.rs`) and
the local-disk health checker (`src/store/local/delegator.rs`).

Pure functions of the Rust source are translated into Lean functions;
stateful code becomes explicit state passing; `i64`/`u64` machine integers
become `Int`/`Nat` with explicit `% 2^64` where a Rust cast matters;
fallible code returns `Except`.  Modules of the repository that are not
part of the given sources (the memory budget, the ticket manager, the
memory buffer internals and the spill event handler) are modelled from the
specification and the corresponding definitions carry a
`Modelled from the spec:` doc comment.
-/

namespace R1

open scoped List

/-- Byte strings are modelled as lists of byte values. -/
abbrev Bytes := List Nat

/-- `Block` (store/mod.rs): one append unit of bytes plus metadata.
Lengths are kept as `Nat` (they are nonnegative `i32` values equal to
`data.len()`); ids as `Int` (`i64`). -/
structure Block where
  block_id : Int
  task_attempt_id : Int
  length : Nat
  uncompress_length : Int
  crc : Int
  data : Bytes
  deriving DecidableEq, Repr

/-- The Rust `as u64` cast of an `i64` value: two's-complement
reinterpretation, i.e. reduction modulo `2^64`. -/
def u64cast (i : Int) : Nat := (i % (2 : Int) ^ 64).toNat

/-- `StorageType` (config.rs): the tier tag returned by `Store::name`. -/
inductive StorageType
  | MEMORY
  | LOCALFILE
  | HDFS
  deriving DecidableEq, Repr

/-- The worker errors that the embedded fragment can produce
(error.rs, as used by memory.rs and hybrid.rs). -/
inductive WorkerError
  | NO_ENOUGH_MEMORY_TO_BE_ALLOCATED
  | SPILL_EVENT_EXCEED_RETRY_MAX_LIMIT (app_id : String)
  | EMPTY_WARM_STORE
  | HEALTH_CHECK_FAILED
  | SPILL_WRITE_FAILED
  | BUDGET_UNDERFLOW
  | NO_TICKET
  deriving DecidableEq, Repr

/-! ## Hybrid store health aggregate (hybrid.rs 417-432, memory.rs 349-351) -/

instance {ε α : Type} [DecidableEq ε] [DecidableEq α] :
    DecidableEq (Except ε α) := fun a b =>
  match a, b with
  | .ok x, .ok y =>
    if h : x = y then .isTrue (by rw [h]) else .isFalse (by simp [h])
  | .ok _, .error _ => .isFalse (by simp)
  | .error _, .ok _ => .isFalse (by simp)
  | .error x, .error y =>
    if h : x = y then .isTrue (by rw [h]) else .isFalse (by simp [h])

/-- The outcome of one persistent tier's `is_healthy().await`
(`Result<bool>`): it may report a boolean or fail with an error. -/
structure TierHealth where
  result : Except Unit Bool
  deriving DecidableEq

/-- `MemoryStore::is_healthy` (memory.rs 349-351): always `Ok(true)`. -/
def MemoryStore.is_healthy : Except Unit Bool := .ok true

/-- The inner `check_healthy` of `HybridStore::is_healthy`
(hybrid.rs 419-424): an absent tier reports `Ok(true)`. -/
def check_healthy (store : Option TierHealth) : Except Unit Bool :=
  match store with
  | some s => s.result
  | none => .ok true

/-- Rust's `Result::unwrap_or`. -/
def unwrapOr (e : Except Unit Bool) (default : Bool) : Bool :=
  match e with
  | .ok b => b
  | .error _ => default

/-- `HybridStore::is_healthy` (hybrid.rs 417-432): the warm and cold
checks default to `false` on error, the hot check's error propagates. -/
def HybridStore.is_healthy (warm cold : Option TierHealth) : Except Unit Bool := do
  let w := unwrapOr (check_healthy warm) false
  let c := unwrapOr (check_healthy cold) false
  let hot ← MemoryStore.is_healthy
  pure (hot && (w || c))

/-- The spec's reading of "the tier is healthy" for an optional tier:
a configured tier is healthy when its check returns `Ok(true)`; an
absent tier imposes no constraint. -/
def tierHealthyProp (store : Option TierHealth) : Prop :=
  match store with
  | some s => s.result = .ok true
  | none => True

instance (store : Option TierHealth) : Decidable (tierHealthyProp store) := by
  unfold tierHealthyProp
  cases store with
  | none => exact inferInstanceAs (Decidable True)
  | some s => exact inferInstanceAs (Decidable (s.result = .ok true))

/-! ## Spill tier selection (hybrid.rs 169-254) -/

/-- A persistent store as the spill path observes it: its health check
outcome and its tier tag. -/
structure PStore where
  healthy : Except Unit Bool
  tag : StorageType
  deriving DecidableEq

/-- `SpillMessage` (store/spill/mod.rs): the fields the handler reads. -/
structure SpillMessage where
  app_id : String
  size : Int
  retry_cnt : Nat
  flight_id : Nat
  deriving DecidableEq, Repr

/-- The tier-selection part of `HybridStore::memory_spill_to_persistent_store`
(hybrid.rs 173-211): the retry guard, the warm/cold resolution, the
threshold comparison (`cold_spilled_size < spill_size as u64`, with the
absent threshold read as `u64::MAX`) and the retry fallback to cold. -/
def selectTier (warm_store cold_store : Option PStore)
    (memory_spill_to_cold_threshold_size : Option Nat)
    (msg : SpillMessage) : Except WorkerError PStore := do
  if msg.retry_cnt > 3 then
    throw (.SPILL_EVENT_EXCEED_RETRY_MAX_LIMIT msg.app_id)
  else
    let warm ← match warm_store with
      | some w => pure w
      | none => throw .EMPTY_WARM_STORE
    let cold := cold_store.getD warm
    let warmHealthy ← match warm.healthy with
      | .ok b => pure b
      | .error _ => throw .HEALTH_CHECK_FAILED
    let candidate :=
      if warmHealthy then
        let cold_spilled_size :=
          memory_spill_to_cold_threshold_size.getD (2 ^ 64 - 1)
        if cold_spilled_size < u64cast msg.size then cold else warm
      else cold
    let candidate := if msg.retry_cnt ≥ 1 then cold else candidate
    pure candidate

/-! ## Spill candidate selection (memory.rs 141-188) -/

/-- One entry of the memory store's buffer map as the spill pass sees
it: the partition key (abstracted to a string) and the buffer's current
staging size, listed in the map's iteration order. -/
abbrev BufferEntry := String × Nat

/-- Insertion into the Rust `BTreeMap<staging_size, Vec<uid>>` of
`calculate_spilled_blocks`, modelled as a key-sorted association list:
a new uid with an existing key is pushed at the end of that key's
vector. -/
def btreeInsert (k : Nat) (v : String) :
    List (Nat × List String) → List (Nat × List String)
  | [] => [(k, [v])]
  | (k', vs) :: rest =>
    if k < k' then (k, [v]) :: (k', vs) :: rest
    else if k = k' then (k', vs ++ [v]) :: rest
    else (k', vs) :: btreeInsert k v rest

/-- The `sorted_tree_map` of `calculate_spilled_blocks`
(memory.rs 154-165): every buffer entry grouped under its staging
size. -/
def buildSizeTree (buffers : List BufferEntry) : List (Nat × List String) :=
  buffers.foldl (fun m b => btreeInsert b.2 b.1 m) []

/-- The entries a size tree holds, group order preserved. -/
def treeElems (tree : List (Nat × List String)) : List BufferEntry :=
  tree.flatMap (fun kv => kv.2.map (fun v => (v, kv.1)))

/-- The iteration `sorted_tree_map.iter().rev()` of
`calculate_spilled_blocks` (memory.rs 170): groups visited in
descending key order, uids inside a group in insertion order. -/
def flattenDesc (tree : List (Nat × List String)) : List BufferEntry :=
  treeElems tree.reverse

/-- Staging bytes of a list of buffer entries, as a signed sum
(the Rust accumulator `spill_staging_size` is an `i64`). -/
def sumStaging (l : List BufferEntry) : Int :=
  (l.map (fun p => (p.2 : Int))).sum

/-- The selection loop of `calculate_spilled_blocks`
(memory.rs 167-181): walk the descending list, breaking out as soon
as the accumulated staging size reaches the required size, otherwise
accumulating the entry. -/
def greedyPick (required : Int) : Int → List BufferEntry → List BufferEntry
  | _, [] => []
  | acc, p :: rest =>
    if acc ≥ required then [] else p :: greedyPick required (acc + p.2) rest

/-- `MemoryStore::calculate_spilled_blocks` (memory.rs 141-188): the
set of spill candidates picked for a memory target, given the buffer
map's entries and the budget's `used` counter. -/
def calculate_spilled_blocks (buffers : List BufferEntry)
    (used mem_target_len : Int) : List BufferEntry :=
  let required_spilled_size := used - mem_target_len
  if required_spilled_size ≤ 0 then []
  else greedyPick required_spilled_size 0 (flattenDesc (buildSizeTree buffers))

/-! ## Memory read with size limit and filter (memory.rs 218-241) -/

/-- The roaring `Treemap` of expected task attempt ids, abstracted to
the list of its members (`u64` values). -/
structure Treemap where
  elems : List Nat
  deriving DecidableEq, Repr

/-- `Treemap::contains`. -/
def Treemap.contains (t : Treemap) (x : Nat) : Bool := t.elems.contains x

/-- The filter test of
`read_partial_data_with_max_size_limit_and_filter` (memory.rs 228-231):
with no filter every block passes, otherwise the block's
`task_attempt_id as u64` must be in the bitmap. -/
def blockPasses (filter : Option Treemap) (b : Block) : Bool :=
  match filter with
  | some f => f.contains (u64cast b.task_attempt_id)
  | none => true

/-- The loop of `read_partial_data_with_max_size_limit_and_filter`
(memory.rs 227-239), threading `fetched_size`: non-matching blocks are
skipped outright, and the loop breaks once `fetched_size`
has reached `fetched_size_limit` (the check runs before each push). -/
def readPartial (filter : Option Treemap) (fetched_size_limit : Int) :
    List Block → Int → List Block × Int
  | [], fetched_size => ([], fetched_size)
  | b :: rest, fetched_size =>
    if blockPasses filter b = false then
      readPartial filter fetched_size_limit rest fetched_size
    else if fetched_size ≥ fetched_size_limit then ([], fetched_size)
    else
      let r := readPartial filter fetched_size_limit rest
        (fetched_size + b.length)
      (b :: r.1, r.2)

/-- `MemoryStore::read_partial_data_with_max_size_limit_and_filter`
(memory.rs 218-241): returns the fetched blocks and the accumulated
fetched size. -/
def read_partial_data_with_max_size_limit_and_filter
    (blocks : List Block) (fetched_size_limit : Int)
    (filter : Option Treemap) : List Block × Int :=
  readPartial filter fetched_size_limit blocks 0

/-- The claim's reading of the loop: accumulate blocks, stopping as
soon as adding the next (matching) block would exceed the limit.
Stated only to compare against the source's `readPartial`. -/
def readUntilWouldExceed (filter : Option Treemap) (max_size : Int) :
    List Block → Int → List Block × Int
  | [], size => ([], size)
  | b :: rest, size =>
    if blockPasses filter b = false then
      readUntilWouldExceed filter max_size rest size
    else if size + b.length > max_size then ([], size)
    else
      let r := readUntilWouldExceed filter max_size rest (size + b.length)
      (b :: r.1, r.2)

/-- Total byte length of a list of blocks, as an `i64` sum. -/
def sumLen (l : List Block) : Int := (l.map (fun b => (b.length : Int))).sum

/-! ## Memory budget, buffer and insert (memory.rs 250-262; the budget
and buffer modules are not among the given sources) -/

/-- Modelled from the spec: `MemoryBudget` (src/store/mem/budget.rs is
not among the given sources).  Three `i64` counters with the invariant
`0 ≤ used ≤ used + allocated ≤ capacity`, plus a monotonic counter for
fresh ticket ids. -/
structure MemoryBudget where
  capacity : Int
  allocated : Int
  used : Int
  ticket_seq : Nat
  deriving DecidableEq, Repr

/-- Modelled from the spec: `require_allocated(n)` atomically checks
free space; on success it increments `allocated` by `n` and returns a
fresh ticket id, on failure it leaves the state unchanged. -/
def MemoryBudget.require_allocated (b : MemoryBudget) (n : Int) :
    Bool × Nat × MemoryBudget :=
  if b.used + b.allocated + n ≤ b.capacity then
    (true, b.ticket_seq,
      { b with allocated := b.allocated + n, ticket_seq := b.ticket_seq + 1 })
  else (false, b.ticket_seq, b)

/-- Modelled from the spec: `move_allocated_to_used(n)` has
precondition `allocated ≥ n`; it transfers `n` bytes from `allocated`
to `used`; underflow is a programming error that fails loudly and
changes nothing. -/
def MemoryBudget.move_allocated_to_used (b : MemoryBudget) (n : Int) :
    Except WorkerError MemoryBudget :=
  if b.allocated ≥ n then
    .ok { b with allocated := b.allocated - n, used := b.used + n }
  else .error .BUDGET_UNDERFLOW

/-- Modelled from the spec: `dec_allocated(n)` with the underflow
precondition `allocated ≥ n`. -/
def MemoryBudget.dec_allocated (b : MemoryBudget) (n : Int) :
    Except WorkerError MemoryBudget :=
  if b.allocated ≥ n then .ok { b with allocated := b.allocated - n }
  else .error .BUDGET_UNDERFLOW

/-- Modelled from the spec: the staging region of a `MemoryBuffer`
(src/store/mem/buffer.rs is not among the given sources).
`append(blocks, size)` pushes the blocks at the end of staging and adds
`size` to `total_size`; it fails only on internal invariant violation,
which the model has none of. -/
structure MemoryBuffer where
  staging : List Block
  total_size : Int
  deriving DecidableEq, Repr

/-- Modelled from the spec: `MemoryBuffer::append`. -/
def MemoryBuffer.append (buf : MemoryBuffer) (blocks : List Block)
    (size : Int) : Except WorkerError MemoryBuffer :=
  .ok { staging := buf.staging ++ blocks, total_size := buf.total_size + size }

/-- The slice of the memory store's state that `insert` touches: the
budget and the partition's buffer (`get_or_create_memory_buffer`). -/
structure MemInsertState where
  budget : MemoryBudget
  buffer : MemoryBuffer
  deriving DecidableEq, Repr

/-- `MemoryStore::insert` (memory.rs 250-262): `buffer.append` runs
first (memory.rs 256), then `move_allocated_to_used(size)`
(memory.rs 258); each `?` returns early, keeping the effects applied so
far. -/
def MemoryStore.insert (s : MemInsertState) (blocks : List Block)
    (size : Int) : MemInsertState × Except WorkerError Unit :=
  match s.buffer.append blocks size with
  | .error e => (s, .error e)
  | .ok buf2 =>
    match s.budget.move_allocated_to_used size with
    | .error e => ({ s with buffer := buf2 }, .error e)
    | .ok bud2 => ({ budget := bud2, buffer := buf2 }, .ok ())

/-! ## Ticket accounting through `MemoryStore::from`
(memory.rs 85-108, 353-376; the ticket manager module is not among the
given sources) -/

/-- A live ticket (spec §3): id, reserved size, owning app and creation
time. -/
structure TicketEntry where
  ticket_id : Nat
  size : Int
  app_id : String
  created_at : Int
  deriving DecidableEq, Repr

/-- The state of a `MemoryStore` built by `MemoryStore::from`
(memory.rs 85-108).  That constructor creates one `MemoryBudget`
(memory.rs 87), captures a clone of it in `release_allocated_func`
(memory.rs 89-91) which the `TicketManager` calls on expiry, and then
builds the store with a second, freshly constructed budget
(memory.rs 102).  The two budget instances are therefore distinct
pieces of state. -/
structure MemoryStoreFromState where
  callback_budget : MemoryBudget
  budget : MemoryBudget
  tickets : List TicketEntry
  deriving DecidableEq, Repr

/-- `MemoryStore::from` with the parsed capacity (memory.rs 85-108):
both budgets start with the same capacity and zero counters. -/
def MemoryStore.fromConf (capacity : Int) : MemoryStoreFromState :=
  { callback_budget := ⟨capacity, 0, 0, 0⟩
    budget := ⟨capacity, 0, 0, 0⟩
    tickets := [] }

/-- `MemoryStore::require_buffer` (memory.rs 353-371): ask the store's
own budget (`self.budget`) for the allocation; on success record the
ticket, on failure return `NO_ENOUGH_MEMORY_TO_BE_ALLOCATED`. -/
def MemoryStore.require_buffer (s : MemoryStoreFromState) (size : Int)
    (app_id : String) (now : Int) :
    MemoryStoreFromState × Except WorkerError Nat :=
  match s.budget.require_allocated size with
  | (true, ticket_id, bud2) =>
    (⟨s.callback_budget, bud2,
        s.tickets ++ [⟨ticket_id, size, app_id, now⟩]⟩,
      .ok ticket_id)
  | (false, _, bud2) =>
    ({ s with budget := bud2 }, .error .NO_ENOUGH_MEMORY_TO_BE_ALLOCATED)

/-- Modelled from the spec: `TicketManager::delete(ticket_id)`
(src/store/mem/ticket.rs is not among the given sources), as invoked by
`MemoryStore::release_buffer` (memory.rs 373-376): remove the ticket
and return its size, or `NO_TICKET`. -/
def TicketManager.delete (s : MemoryStoreFromState) (ticket_id : Nat) :
    MemoryStoreFromState × Except WorkerError Int :=
  match s.tickets.find? (fun t => t.ticket_id == ticket_id) with
  | some t =>
    ({ s with tickets := s.tickets.filter (fun u => u.ticket_id != ticket_id) },
      .ok t.size)
  | none => (s, .error .NO_TICKET)

/-- Modelled from the spec: the ticket reaper (src/store/mem/ticket.rs
is not among the given sources).  Every ticket with
`now − created_at ≥ ttl` is removed and its size released through
`release_allocated_func`, i.e. `dec_allocated` on the budget captured
at construction time; a failure of the callback is swallowed
(`map_or(false, |v| v)`, memory.rs 90-91). -/
def MemoryStore.reapExpiredTickets (s : MemoryStoreFromState)
    (now ttl : Int) : MemoryStoreFromState :=
  let expired := s.tickets.filter (fun t => decide (now - t.created_at ≥ ttl))
  let remaining := s.tickets.filter (fun t => ! decide (now - t.created_at ≥ ttl))
  { s with
    tickets := remaining
    callback_budget := expired.foldl
      (fun b t =>
        match b.dec_allocated t.size with
        | .ok b2 => b2
        | .error _ => b)
      s.callback_budget }

/-! ## HDFS spill writes (hdfs.rs 125-227, 341-353) -/

/-- One 40-byte index record built by `HdfsStore::data_insert`
(hdfs.rs 192-197), in field order. -/
structure IndexRec where
  offset : Int
  length : Nat
  uncompress_length : Int
  crc : Int
  block_id : Int
  task_attempt_id : Int
  deriving DecidableEq, Repr

/-- The block loop of `HdfsStore::data_insert` (hdfs.rs 184-205):
builds the index record batch and the concatenated data bytes in list
order, threading `next_offset`; returns (index records, data bytes,
final next_offset). -/
def buildHolders (next_offset : Int) :
    List Block → List IndexRec × Bytes × Int
  | [] => ([], [], next_offset)
  | b :: rest =>
    let r := buildHolders (next_offset + b.length) rest
    (⟨next_offset, b.length, b.uncompress_length, b.crc, b.block_id,
        b.task_attempt_id⟩ :: r.1,
      b.data ++ r.2.1, r.2.2)

/-- The key order used by `data.sort_by_key(|block| block.task_attempt_id)`
in `HdfsStore::spill_insert` (hdfs.rs 351). -/
def taskIdLe (a b : Block) : Prop := a.task_attempt_id ≤ b.task_attempt_id

instance : DecidableRel taskIdLe := fun a b =>
  inferInstanceAs (Decidable (a.task_attempt_id ≤ b.task_attempt_id))

instance : IsTotal Block taskIdLe :=
  ⟨fun a b => le_total a.task_attempt_id b.task_attempt_id⟩

instance : IsTrans Block taskIdLe :=
  ⟨fun _ _ _ h1 h2 => le_trans h1 h2⟩

/-- `HdfsStore::spill_insert` (hdfs.rs 341-353): flatten the batched
block lists in order, re-sort by `task_attempt_id` ("for AQE"), and
hand the result to `data_insert`.  Rust's `sort_by_key` is a stable
sort; a stable sort for a total preorder is unique, so it is embedded
as insertion sort on the same key. -/
def HdfsStore.spill_insert_writes (batches : List (List Block))
    (next_offset : Int) : List IndexRec × Bytes × Int :=
  buildHolders next_offset (List.insertionSort taskIdLe (batches.flatMap id))

/-! ## Local disk health checker (delegator.rs 121-208) -/

/-- The `(is_healthy, is_corrupted)` flag pair of a
`LocalDiskDelegator` (delegator.rs 38-39); the initial state is
`(true, false)` (delegator.rs 77-78). -/
structure DiskState where
  healthy : Bool
  corrupted : Bool
  deriving DecidableEq, Repr

/-- The disk watermark configuration (delegator.rs 41-42); the f32
fractions are modelled as exact rationals. -/
structure DiskParams where
  high_watermark : ℚ
  low_watermark : ℚ

/-- What one checker iteration observes from the world: capacity and
available bytes (`none` models an `fs2` error), and the canary round
trip (`none` models an I/O error in delete/write/read, `some ok`
whether the read bytes equalled the written bytes). -/
structure CheckEnv where
  capacity : Option Nat
  available : Option Nat
  canary : Option Bool

/-- `LocalDiskDelegator::capacity_check` (delegator.rs 154-189): reads
`healthy` once into `healthy_stat`, marks unhealthy above the high
watermark and healthy again below the low watermark; an error getting
the sizes is only logged by the caller (delegator.rs 130-139). -/
def capacity_check (p : DiskParams) (env : CheckEnv) (s : DiskState) :
    DiskState :=
  match env.capacity, env.available with
  | some capacity, some available =>
    let used : Int := (capacity : Int) - (available : Int)
    let used_ratio : ℚ := (used : ℚ) / (capacity : ℚ)
    let healthy_stat := s.healthy
    let s1 := if healthy_stat = true ∧ used_ratio > p.high_watermark then
        { s with healthy := false } else s
    if healthy_stat = false ∧ used_ratio < p.low_watermark then
      { s1 with healthy := true } else s1
  | _, _ => s

/-- `LocalDiskDelegator::write_read_check` (delegator.rs 191-208)
together with its caller's error handling (delegator.rs 140-150): a
canary mismatch calls `mark_corrupted` inside the check, and an I/O
error propagates to `schedule_check`, which calls `mark_corrupted`. -/
def write_read_check (env : CheckEnv) (s : DiskState) : DiskState :=
  match env.canary with
  | some true => s
  | some false => { s with corrupted := true }
  | none => { s with corrupted := true }

/-- One iteration of the `LocalDiskDelegator::schedule_check` loop
(delegator.rs 121-152): after the sleep, a corrupted disk skips every
check (`continue`); otherwise the capacity check runs, then the
write+read check. -/
def schedule_check_step (p : DiskParams) (env : CheckEnv) (s : DiskState) :
    DiskState :=
  if s.corrupted = true then s
  else write_read_check env (capacity_check p env s)

/-- The checker loop run over a finite trace of observations. -/
def schedule_check_run (p : DiskParams) (envs : List CheckEnv)
    (s : DiskState) : DiskState :=
  envs.foldl (fun st e => schedule_check_step p e st) s

/-! ## Usage ratio and in-flight accounting
(memory.rs 118-131, hybrid.rs 293-345, 360-379) -/

/-- The counters feeding `MemoryStore::calculate_usage_ratio`: the
budget snapshot and the `in_flush_buffer_size` atomic
(memory.rs 50-58). -/
structure HotStoreState where
  capacity : Int
  allocated : Int
  used : Int
  in_flush_buffer_size : Nat
  deriving DecidableEq, Repr

/-- `MemoryStore::calculate_usage_ratio` (memory.rs 118-123):
`(used + allocated − in_flush_buffer_size) / capacity`, the f32
arithmetic modelled as exact rationals. -/
def calculate_usage_fraction (s : HotStoreState) : ℚ :=
  ((s.used + s.allocated - (s.in_flush_buffer_size : Int) : Int) : ℚ) /
    (s.capacity : ℚ)

/-- The spill trigger in `HybridStore::insert` (hybrid.rs 369-375):
spill exactly when the usage ratio exceeds the high watermark. -/
def hybridSpillTriggered (s : HotStoreState) (high_watermark : ℚ) : Prop :=
  calculate_usage_fraction s > high_watermark

/-- The tail of `HybridStore::watermark_spill` (hybrid.rs 320-343):
after the selected flights (totalling `flushed_size` bytes) have been
published to the event bus, `inc_inflight(flushed_size)` runs. -/
def afterWatermarkPublish (s : HotStoreState) (flushed_size : Nat) :
    HotStoreState :=
  { s with in_flush_buffer_size := s.in_flush_buffer_size + flushed_size }

/-- `HybridStore::release_data_in_memory` (hybrid.rs 293-305), run
after a spill succeeds: clear the flight, `dec_used(data_size)`,
`dec_inflight(data_size)`. -/
def release_data_in_memory (s : HotStoreState) (data_size : Nat) :
    HotStoreState :=
  { s with
    used := s.used - (data_size : Int)
    in_flush_buffer_size := s.in_flush_buffer_size - data_size }

/-! ## Spill retry pipeline (hybrid.rs 169-254; the event handler
module is not among the given sources) -/

/-- `HybridStore::memory_spill_to_persistent_store` (hybrid.rs 169-254)
with the persistent write abstracted by `writeOk`: first component is
whether a persistent-tier write was attempted (the retry guard at
hybrid.rs 176-179 returns before any tier is touched), the second the
outcome. -/
def memory_spill_to_persistent_store (warm_store cold_store : Option PStore)
    (thr : Option Nat) (writeOk : Bool) (msg : SpillMessage) :
    Bool × Except WorkerError String :=
  match selectTier warm_store cold_store thr msg with
  | .error e => (false, .error e)
  | .ok _ => (true, if writeOk then .ok "flushed" else .error .SPILL_WRITE_FAILED)

/-- The observable spill-pipeline state: the event-bus queue, the hot
store's `used` counter, whether the flight is still resident in the
buffer, the surfaced retry-exhausted app ids, and a count of
persistent-tier write attempts. -/
structure SpillSystemState where
  queue : List SpillMessage
  used : Int
  flight_resident : Bool
  error_sink : List String
  write_attempts : Nat
  deriving DecidableEq, Repr

/-- Modelled from the spec: the spill event handler
(src/store/spill/event_handler.rs is not among the given sources).
Success releases the flight (`release_data_in_memory`); the
retry-exceeded error is surfaced to the error sink; any other failure
re-publishes the message with `retry_cnt + 1`. -/
def handleSpillMessage (warm_store cold_store : Option PStore)
    (thr : Option Nat) (writeOk : Bool) (msg : SpillMessage)
    (s : SpillSystemState) : SpillSystemState :=
  let r := memory_spill_to_persistent_store warm_store cold_store thr
    writeOk msg
  let s1 : SpillSystemState :=
    { s with write_attempts := s.write_attempts + (if r.1 then 1 else 0) }
  match r.2 with
  | .ok _ =>
    { s1 with flight_resident := false, used := s1.used - msg.size }
  | .error (.SPILL_EVENT_EXCEED_RETRY_MAX_LIMIT app) =>
    { s1 with error_sink := s1.error_sink ++ [app] }
  | .error _ =>
    { s1 with queue := s1.queue ++ [{ msg with retry_cnt := msg.retry_cnt + 1 }] }

/-- One pump of the event bus: the worker takes the head message and
handles it. -/
def spillPump (warm_store cold_store : Option PStore) (thr : Option Nat)
    (writeOk : Bool) (s : SpillSystemState) : SpillSystemState :=
  match s.queue with
  | [] => s
  | msg :: rest =>
    handleSpillMessage warm_store cold_store thr writeOk msg
      { s with queue := rest }

theorem greedyPick_nil (required acc : Int) :
    greedyPick required acc [] = [] := rfl

theorem greedyPick_cons (required acc : Int) (p : BufferEntry)
    (rest : List BufferEntry) :
    greedyPick required acc (p :: rest) =
      if acc ≥ required then [] else
        p :: greedyPick required (acc + p.2) rest := rfl

theorem treeElems_btreeInsert (k : Nat) (v : String)
    (m : List (Nat × List String)) :
    treeElems (btreeInsert k v m) ~ (v, k) :: treeElems m := by
  induction m with
  | nil => simp [btreeInsert, treeElems]
  | cons hd rest ih =>
    obtain ⟨k', vs⟩ := hd
    by_cases h1 : k < k'
    · simp [btreeInsert, treeElems, h1]
    · by_cases h2 : k = k'
      · subst h2
        simp only [btreeInsert, h1, if_false, ite_false, if_true, ite_true,
          if_pos rfl, treeElems, List.flatMap_cons, List.map_append]
        rw [List.append_assoc]
        exact List.perm_middle.trans (by simp)
      · simp only [btreeInsert, h1, h2, if_false, ite_false, treeElems,
          List.flatMap_cons]
        calc (vs.map fun v2 => (v2, k')) ++
              (btreeInsert k v rest).flatMap (fun kv => kv.2.map fun v2 => (v2, kv.1))
            ~ (vs.map fun v2 => (v2, k')) ++ ((v, k) :: treeElems rest) :=
              List.Perm.append_left _ ih
          _ ~ (v, k) :: ((vs.map fun v2 => (v2, k')) ++ treeElems rest) :=
              List.perm_middle
          _ = (v, k) :: treeElems ((k', vs) :: rest) := by
              simp [treeElems]

theorem treeElems_buildSizeTree (buffers : List BufferEntry) :
    treeElems (buildSizeTree buffers) ~ buffers := by
  suffices h : ∀ (l : List BufferEntry) (m : List (Nat × List String)),
      treeElems (l.foldl (fun m b => btreeInsert b.2 b.1 m) m) ~
        l ++ treeElems m by
    simpa [buildSizeTree, treeElems] using h buffers []
  intro l
  induction l with
  | nil => simp
  | cons b rest ih =>
    intro m
    calc treeElems ((b :: rest).foldl (fun m b => btreeInsert b.2 b.1 m) m)
        = treeElems (rest.foldl (fun m b => btreeInsert b.2 b.1 m)
            (btreeInsert b.2 b.1 m)) := by simp
      _ ~ rest ++ treeElems (btreeInsert b.2 b.1 m) := ih _
      _ ~ rest ++ ((b.1, b.2) :: treeElems m) :=
          List.Perm.append_left _ (treeElems_btreeInsert _ _ _)
      _ ~ (b.1, b.2) :: (rest ++ treeElems m) := List.perm_middle
      _ = (b :: rest) ++ treeElems m := by simp

theorem treeElems_reverse_perm (tree : List (Nat × List String)) :
    treeElems tree.reverse ~ treeElems tree := by
  induction tree with
  | nil => simp
  | cons hd rest ih =>
    simp only [List.reverse_cons, treeElems, List.flatMap_append,
      List.flatMap_cons, List.flatMap_nil, List.append_nil]
    calc rest.reverse.flatMap (fun kv => kv.2.map fun v => (v, kv.1)) ++
          hd.2.map (fun v => (v, hd.1))
        ~ hd.2.map (fun v => (v, hd.1)) ++
            rest.reverse.flatMap (fun kv => kv.2.map fun v => (v, kv.1)) :=
          List.perm_append_comm
      _ ~ hd.2.map (fun v => (v, hd.1)) ++ treeElems rest :=
          List.Perm.append_left _ ih

theorem flattenDesc_perm (buffers : List BufferEntry) :
    flattenDesc (buildSizeTree buffers) ~ buffers :=
  (treeElems_reverse_perm _).trans (treeElems_buildSizeTree buffers)

theorem btreeInsert_keys (k : Nat) (v : String)
    (m : List (Nat × List String)) :
    ∀ p ∈ btreeInsert k v m, p.1 = k ∨ p.1 ∈ m.map Prod.fst := by
  induction m with
  | nil =>
    intro p hp
    simp only [btreeInsert, List.mem_singleton] at hp
    subst hp
    exact Or.inl rfl
  | cons hd rest ih =>
    obtain ⟨k', vs⟩ := hd
    intro p hp
    by_cases h1 : k < k'
    · simp only [btreeInsert, h1, if_true, ite_true] at hp
      rcases List.mem_cons.mp hp with heq | hp2
      · exact Or.inl (by rw [heq])
      · exact Or.inr (List.mem_map_of_mem Prod.fst hp2)
    · by_cases h2 : k = k'
      · subst h2
        simp only [btreeInsert, h1, if_false, ite_false, if_pos rfl,
          ite_true] at hp
        rcases List.mem_cons.mp hp with heq | hp2
        · exact Or.inl (by rw [heq])
        · exact Or.inr (List.mem_cons_of_mem _
            (List.mem_map_of_mem Prod.fst hp2))
      · simp only [btreeInsert, h1, h2, if_false, ite_false] at hp
        rcases List.mem_cons.mp hp with heq | hp2
        · exact Or.inr (by rw [heq]; simp)
        · rcases ih p hp2 with h3 | h3
          · exact Or.inl h3
          · refine Or.inr ?_
            simp only [List.map_cons, List.mem_cons]
            exact Or.inr h3

theorem btreeInsert_sorted (k : Nat) (v : String)
    (m : List (Nat × List String))
    (hm : m.Pairwise (fun a b => a.1 < b.1)) :
    (btreeInsert k v m).Pairwise (fun a b => a.1 < b.1) := by
  induction m with
  | nil => simp [btreeInsert]
  | cons hd rest ih =>
    obtain ⟨k', vs⟩ := hd
    rw [List.pairwise_cons] at hm
    obtain ⟨hhd, hrest⟩ := hm
    by_cases h1 : k < k'
    · simp only [btreeInsert, h1, if_true, ite_true]
      refine List.Pairwise.cons ?_ (List.Pairwise.cons hhd hrest)
      intro p hp
      rcases List.mem_cons.mp hp with heq | hmem
      · rw [heq]; exact h1
      · exact lt_trans h1 (hhd p hmem)
    · by_cases h2 : k = k'
      · subst h2
        simp only [btreeInsert, h1, if_false, ite_false, if_pos rfl]
        exact List.Pairwise.cons hhd hrest
      · have hk : k' < k := by omega
        simp only [btreeInsert, h1, h2, if_false, ite_false]
        refine List.Pairwise.cons ?_ (ih hrest)
        intro p hp
        rcases btreeInsert_keys k v rest p hp with h3 | h3
        · simpa [h3] using hk
        · simp only [List.mem_map] at h3
          obtain ⟨q, hq, hq2⟩ := h3
          exact hq2 ▸ hhd q hq

theorem buildSizeTree_sorted (buffers : List BufferEntry) :
    (buildSizeTree buffers).Pairwise (fun a b => a.1 < b.1) := by
  suffices h : ∀ (l : List BufferEntry) (m : List (Nat × List String)),
      m.Pairwise (fun a b => a.1 < b.1) →
        (l.foldl (fun m b => btreeInsert b.2 b.1 m) m).Pairwise
          (fun a b => a.1 < b.1) by
    exact h buffers [] (by simp)
  intro l
  induction l with
  | nil => intro m hm; simpa using hm
  | cons b rest ih =>
    intro m hm
    simpa using ih _ (btreeInsert_sorted b.2 b.1 m hm)

theorem mem_treeElems_key (tree : List (Nat × List String)) :
    ∀ p ∈ treeElems tree, p.2 ∈ tree.map Prod.fst := by
  intro p hp
  simp only [treeElems, List.mem_flatMap, List.mem_map] at hp
  obtain ⟨kv, hkv, v, hv, hveq⟩ := hp
  simp only [List.mem_map]
  exact ⟨kv, hkv, by rw [← hveq]⟩

theorem treeElems_desc (tree : List (Nat × List String))
    (hm : tree.Pairwise (fun a b => b.1 ≤ a.1)) :
    (treeElems tree).Pairwise (fun a b => b.2 ≤ a.2) := by
  induction tree with
  | nil => simp [treeElems]
  | cons hd rest ih =>
    rw [List.pairwise_cons] at hm
    obtain ⟨hhd, hrest⟩ := hm
    simp only [treeElems, List.flatMap_cons]
    rw [List.pairwise_append]
    refine ⟨?_, ih hrest, ?_⟩
    · rw [List.pairwise_map]
      exact List.pairwise_of_forall fun _ _ => le_refl _
    · intro a ha b hb
      simp only [List.mem_map] at ha
      obtain ⟨v, hv, hveq⟩ := ha
      have hk := mem_treeElems_key rest b hb
      simp only [List.mem_map] at hk
      obtain ⟨q, hq, hq2⟩ := hk
      have := hhd q hq
      rw [← hveq]
      simp only
      omega

theorem flattenDesc_sorted (buffers : List BufferEntry) :
    (flattenDesc (buildSizeTree buffers)).Pairwise (fun a b => b.2 ≤ a.2) := by
  refine treeElems_desc _ ?_
  rw [List.pairwise_reverse]
  exact (buildSizeTree_sorted buffers).imp (fun h => le_of_lt h)

theorem greedyPick_prefix (required : Int) (acc : Int) (l : List BufferEntry) :
    greedyPick required acc l <+: l := by
  induction l generalizing acc with
  | nil => simp [greedyPick]
  | cons p rest ih =>
    by_cases h : acc ≥ required
    · rw [greedyPick_cons, if_pos h]
      exact List.nil_prefix
    · rw [greedyPick_cons, if_neg h]
      exact List.cons_prefix_cons.mpr ⟨rfl, ih (acc + p.2)⟩

theorem greedyPick_covers (required : Int) (acc : Int) (l : List BufferEntry)
    (h : acc + sumStaging l ≥ required) :
    acc + sumStaging (greedyPick required acc l) ≥ required := by
  induction l generalizing acc with
  | nil => simpa [greedyPick] using h
  | cons p rest ih =>
    by_cases hge : acc ≥ required
    · rw [greedyPick_cons, if_pos hge]
      simp only [sumStaging, List.map_nil, List.sum_nil]
      omega
    · have h2 : (acc + p.2) + sumStaging rest ≥ required := by
        simp only [sumStaging, List.map_cons, List.sum_cons] at h ⊢
        omega
      have h3 := ih (acc + p.2) h2
      rw [greedyPick_cons, if_neg hge]
      simp only [sumStaging, List.map_cons, List.sum_cons]
      simp only [sumStaging] at h3
      omega

theorem greedyPick_stops (required : Int) (acc : Int) (l : List BufferEntry) :
    ∀ pre, pre <+: greedyPick required acc l → pre ≠ greedyPick required acc l →
      acc + sumStaging pre < required := by
  induction l generalizing acc with
  | nil =>
    intro pre hpre hne
    rw [greedyPick_nil] at hpre hne
    exact absurd (List.prefix_nil.mp hpre) hne
  | cons p rest ih =>
    intro pre hpre hne
    by_cases hge : acc ≥ required
    · rw [greedyPick_cons, if_pos hge] at hpre hne
      exact absurd (List.prefix_nil.mp hpre) hne
    · rw [greedyPick_cons, if_neg hge] at hpre hne
      cases pre with
      | nil =>
        simp only [sumStaging, List.map_nil, List.sum_nil]
        omega
      | cons q pre2 =>
        rw [List.cons_prefix_cons] at hpre
        obtain ⟨hqp, hpre2⟩ := hpre
        subst hqp
        have hne2 : pre2 ≠ greedyPick required (acc + q.2) rest := by
          intro hcontra
          exact hne (by rw [hcontra])
        have h4 := ih (acc + q.2) pre2 hpre2 hne2
        simp only [sumStaging, List.map_cons, List.sum_cons]
        simp only [sumStaging] at h4
        omega

end R1

namespace R1

open scoped List

/-- C3: the hybrid health aggregate is exactly
`hot ∧ (warm ∨ cold)` over the configured tiers. -/
theorem hybrid_is_healthy_iff (warm cold : Option TierHealth) :
    HybridStore.is_healthy warm cold = .ok true ↔
      (MemoryStore.is_healthy = .ok true ∧
        (tierHealthyProp warm ∨ tierHealthyProp cold)) := by
  constructor
  · intro h
    refine ⟨rfl, ?_⟩
    cases warm with
    | none => exact Or.inl trivial
    | some w =>
      cases cold with
      | none => exact Or.inr trivial
      | some c =>
        simp only [HybridStore.is_healthy, MemoryStore.is_healthy, check_healthy,
          bind, Except.bind, pure, Except.pure, Bool.true_and, Except.ok.injEq] at h
        rcases hw : w.result with e | b
        · rcases hc : c.result with e' | b'
          · simp [tierHealthyProp, unwrapOr, hw, hc] at h
          · simp only [unwrapOr, hw, hc, Bool.false_or] at h
            subst h
            exact Or.inr hc
        · cases b with
          | false =>
            rcases hc : c.result with e' | b'
            · simp [tierHealthyProp, unwrapOr, hw, hc] at h
            · simp only [unwrapOr, hw, hc, Bool.false_or] at h
              subst h
              exact Or.inr hc
          | true => exact Or.inl (by simp [tierHealthyProp, hw])
  · rintro ⟨-, h⟩
    simp only [HybridStore.is_healthy, MemoryStore.is_healthy, check_healthy,
      bind, Except.bind, pure, Except.pure, Bool.true_and, Except.ok.injEq]
    rcases h with h | h
    · cases warm with
      | none => simp [check_healthy, unwrapOr]
      | some w =>
        simp only [tierHealthyProp] at h
        simp [check_healthy, unwrapOr, h]
    · cases cold with
      | none => simp [check_healthy, unwrapOr]
      | some c =>
        simp only [tierHealthyProp] at h
        simp [check_healthy, unwrapOr, h]

/-- C5: tier selection for a spill message with a configured warm store
whose health check reports `b`, for every message within the retry
bound: a first-try message goes warm when warm is healthy and the size
is at most the cold threshold (absent threshold meaning unbounded),
otherwise cold (which falls back to warm when no cold store is
configured); any message with `retry_cnt ≥ 1` goes cold. -/
theorem spill_tier_selection
    (w : PStore) (cold_store : Option PStore) (thr : Option Nat)
    (msg : SpillMessage) (b : Bool)
    (hcnt : msg.retry_cnt ≤ 3) (hb : w.healthy = .ok b) :
    (msg.retry_cnt ≥ 1 →
        selectTier (some w) cold_store thr msg = .ok (cold_store.getD w)) ∧
    (msg.retry_cnt = 0 → b = true →
        u64cast msg.size ≤ thr.getD (2 ^ 64 - 1) →
        selectTier (some w) cold_store thr msg = .ok w) ∧
    (msg.retry_cnt = 0 → b = true →
        thr.getD (2 ^ 64 - 1) < u64cast msg.size →
        selectTier (some w) cold_store thr msg = .ok (cold_store.getD w)) ∧
    (msg.retry_cnt = 0 → b = false →
        selectTier (some w) cold_store thr msg = .ok (cold_store.getD w)) := by
  have hng : ¬ msg.retry_cnt > 3 := by omega
  refine ⟨?_, ?_, ?_, ?_⟩
  · intro h1
    have h1' : msg.retry_cnt ≥ 1 := h1
    simp [selectTier, hng, hb, h1', bind, Except.bind, pure, Except.pure]
  · intro h0 hbt hle
    have hnlt : ¬ thr.getD (2 ^ 64 - 1) < u64cast msg.size := not_lt.mpr hle
    have h1' : ¬ msg.retry_cnt ≥ 1 := by omega
    simp only [selectTier, hng, hb, hbt, h0, h1', hnlt, bind, Except.bind,
      pure, Except.pure, if_false, ite_false]
    norm_num
  · intro h0 hbt hlt
    have h1' : ¬ msg.retry_cnt ≥ 1 := by omega
    simp only [selectTier, hng, hb, hbt, h0, h1', hlt, bind, Except.bind,
      pure, Except.pure, if_false, ite_false, if_true, ite_true]
    norm_num
  · intro h0 hbf
    have h1' : ¬ msg.retry_cnt ≥ 1 := by omega
    simp [selectTier, hng, hb, hbf, h0, h1', bind, Except.bind, pure,
      Except.pure]

/-- Witness for C5 at a concrete input: a healthy warm store, a
configured cold store, threshold 100 and a first-try message of size
50 below the threshold goes to the warm store. -/
theorem spill_tier_selection_witness :
    (0 ≤ 3 ∧ PStore.mk (.ok true) .LOCALFILE = PStore.mk (.ok true) .LOCALFILE) ∧
      selectTier (some (PStore.mk (.ok true) .LOCALFILE))
        (some (PStore.mk (.ok true) .HDFS)) (some 100)
        (SpillMessage.mk "app1" 50 0 0) = .ok (PStore.mk (.ok true) .LOCALFILE) :=
  ⟨⟨by decide, rfl⟩,
    (spill_tier_selection (PStore.mk (.ok true) .LOCALFILE)
      (some (PStore.mk (.ok true) .HDFS)) (some 100)
      (SpillMessage.mk "app1" 50 0 0) true (by decide) rfl).2.1 rfl rfl
      (by decide)⟩

/-- C6: spill candidate selection.  When `used ≤ mem_target` nothing is
selected.  Otherwise the candidates are a prefix of the buffers
arranged in descending staging-size order (that arrangement being a
permutation of the buffer map), each candidate is admitted only while
the running staging sum is still below `used − mem_target`, and the
selected staging sum covers the deficit whenever the total staging
bytes suffice. -/
theorem pickup_spill_blocks_spec (buffers : List BufferEntry)
    (used mem_target_len : Int) :
    (used ≤ mem_target_len →
        calculate_spilled_blocks buffers used mem_target_len = []) ∧
    calculate_spilled_blocks buffers used mem_target_len <+:
        flattenDesc (buildSizeTree buffers) ∧
    flattenDesc (buildSizeTree buffers) ~ buffers ∧
    (calculate_spilled_blocks buffers used mem_target_len).Pairwise
        (fun a b => b.2 ≤ a.2) ∧
    (sumStaging buffers ≥ used - mem_target_len →
        sumStaging (calculate_spilled_blocks buffers used mem_target_len) ≥
          used - mem_target_len) ∧
    (∀ pre, pre <+: calculate_spilled_blocks buffers used mem_target_len →
        pre ≠ calculate_spilled_blocks buffers used mem_target_len →
        sumStaging pre < used - mem_target_len) := by
  have hsum : sumStaging (flattenDesc (buildSizeTree buffers)) =
      sumStaging buffers :=
    List.Perm.sum_eq ((flattenDesc_perm buffers).map fun p => (p.2 : Int))
  have hprefix : calculate_spilled_blocks buffers used mem_target_len <+:
      flattenDesc (buildSizeTree buffers) := by
    unfold calculate_spilled_blocks
    by_cases hreq : used - mem_target_len ≤ 0
    · rw [if_pos hreq]; exact List.nil_prefix
    · rw [if_neg hreq]; exact greedyPick_prefix _ _ _
  refine ⟨?_, hprefix, flattenDesc_perm buffers, ?_, ?_, ?_⟩
  · intro hle
    unfold calculate_spilled_blocks
    rw [if_pos (by omega)]
  · exact List.Pairwise.sublist hprefix.sublist (flattenDesc_sorted buffers)
  · intro htotal
    unfold calculate_spilled_blocks
    by_cases hreq : used - mem_target_len ≤ 0
    · rw [if_pos hreq]
      simp only [sumStaging, List.map_nil, List.sum_nil]
      omega
    · rw [if_neg hreq]
      have := greedyPick_covers (used - mem_target_len) 0
        (flattenDesc (buildSizeTree buffers)) (by omega)
      omega
  · intro pre hpre hne
    unfold calculate_spilled_blocks at hpre hne
    by_cases hreq : used - mem_target_len ≤ 0
    · rw [if_pos hreq] at hpre hne
      exact absurd (List.prefix_nil.mp hpre) hne
    · rw [if_neg hreq] at hpre hne
      have := greedyPick_stops (used - mem_target_len) 0
        (flattenDesc (buildSizeTree buffers)) pre hpre hne
      omega

/-- Witness for C6 at a concrete input: two buffers with staging sizes
5 and 3, `used = 10`, `mem_target = 2`: the staging total 8 covers the
deficit 8, and the selection's staging sum indeed reaches it. -/
theorem pickup_spill_blocks_spec_witness :
    (sumStaging [("a", 5), ("b", 3)] ≥ (10 : Int) - 2) ∧
      sumStaging (calculate_spilled_blocks [("a", 5), ("b", 3)] 10 2) ≥
        (10 : Int) - 2 :=
  ⟨by decide,
    (pickup_spill_blocks_spec [("a", 5), ("b", 3)] 10 2).2.2.2.2.1
      (by decide)⟩

theorem readPartial_nil (filter : Option Treemap) (limit s : Int) :
    readPartial filter limit [] s = ([], s) := rfl

theorem readPartial_cons (filter : Option Treemap) (limit : Int)
    (b : Block) (rest : List Block) (s : Int) :
    readPartial filter limit (b :: rest) s =
      if blockPasses filter b = false then readPartial filter limit rest s
      else if s ≥ limit then ([], s)
      else ((b :: (readPartial filter limit rest (s + b.length)).1),
        (readPartial filter limit rest (s + b.length)).2) := rfl

theorem blockPasses_none (b : Block) : blockPasses none b = true := rfl

theorem readPartial_filter_eq (filter : Option Treemap) (limit : Int)
    (blocks : List Block) (s : Int) :
    readPartial filter limit blocks s =
      readPartial none limit (blocks.filter (blockPasses filter)) s := by
  induction blocks generalizing s with
  | nil => rfl
  | cons b rest ih =>
    by_cases hb : blockPasses filter b = false
    · rw [readPartial_cons, if_pos hb, List.filter_cons, if_neg (by simp [hb])]
      exact ih s
    · have hb' : blockPasses filter b = true := by
        revert hb; cases blockPasses filter b <;> simp
      have hnone : ¬ blockPasses none b = false := by simp [blockPasses_none]
      rw [readPartial_cons, if_neg hb, List.filter_cons, if_pos hb',
        readPartial_cons, if_neg hnone]
      by_cases hs : s ≥ limit
      · rw [if_pos hs, if_pos hs]
      · rw [if_neg hs, if_neg hs, ih (s + b.length)]

theorem readPartial_none_isPrefix (limit : Int) (l : List Block) (s : Int) :
    (readPartial none limit l s).1 <+: l := by
  induction l generalizing s with
  | nil => simp [readPartial_nil]
  | cons b rest ih =>
    rw [readPartial_cons, blockPasses_none, if_neg (by simp)]
    by_cases hs : s ≥ limit
    · rw [if_pos hs]; exact List.nil_prefix
    · rw [if_neg hs]
      exact List.cons_prefix_cons.mpr ⟨rfl, ih (s + b.length)⟩

theorem readPartial_none_size (limit : Int) (l : List Block) (s : Int) :
    (readPartial none limit l s).2 = s + sumLen (readPartial none limit l s).1 := by
  induction l generalizing s with
  | nil => simp [readPartial_nil, sumLen]
  | cons b rest ih =>
    rw [readPartial_cons, blockPasses_none, if_neg (by simp)]
    by_cases hs : s ≥ limit
    · rw [if_pos hs]; simp [sumLen]
    · rw [if_neg hs]
      have := ih (s + b.length)
      simp only [sumLen, List.map_cons, List.sum_cons] at this ⊢
      omega

theorem readPartial_none_stop (limit : Int) (l : List Block) (s : Int)
    (h : (readPartial none limit l s).1 ≠ l) :
    (readPartial none limit l s).2 ≥ limit := by
  induction l generalizing s with
  | nil => simp [readPartial_nil] at h
  | cons b rest ih =>
    rw [readPartial_cons, blockPasses_none, if_neg (by simp)] at h ⊢
    by_cases hs : s ≥ limit
    · rw [if_pos hs] at h ⊢; exact hs
    · rw [if_neg hs] at h ⊢
      exact ih (s + b.length) (by simpa using h)

theorem readPartial_none_below (limit : Int) (l : List Block) (s : Int) :
    ∀ pre, pre <+: (readPartial none limit l s).1 →
      pre ≠ (readPartial none limit l s).1 → s + sumLen pre < limit := by
  induction l generalizing s with
  | nil =>
    intro pre hpre hne
    rw [readPartial_nil] at hpre hne
    exact absurd (List.prefix_nil.mp hpre) hne
  | cons b rest ih =>
    intro pre hpre hne
    rw [readPartial_cons, blockPasses_none, if_neg (by simp)] at hpre hne
    by_cases hs : s ≥ limit
    · rw [if_pos hs] at hpre hne
      exact absurd (List.prefix_nil.mp hpre) hne
    · rw [if_neg hs] at hpre hne
      cases pre with
      | nil =>
        simp only [sumLen, List.map_nil, List.sum_nil]
        omega
      | cons q pre2 =>
        rw [List.cons_prefix_cons] at hpre
        obtain ⟨hqb, hpre2⟩ := hpre
        subst hqb
        have hne2 : pre2 ≠ (readPartial none limit rest (s + q.length)).1 := by
          intro hcontra
          exact hne (by rw [hcontra])
        have h4 := ih (s + q.length) pre2 hpre2 hne2
        simp only [sumLen, List.map_cons, List.sum_cons] at h4 ⊢
        omega

/-- C7 (amended): `read_partial_data_with_max_size_limit_and_filter`
returns a prefix of the filtered block sequence; its reported size is
the sum of the returned blocks' lengths; the prefix is proper only when
the accumulated size has reached the limit; each block was admitted
while the size already accumulated was still strictly below the limit
(so the total may overshoot the limit by the final block); and a
non-positive limit yields zero blocks. -/
theorem read_partial_spec (blocks : List Block) (limit : Int)
    (filter : Option Treemap) :
    (read_partial_data_with_max_size_limit_and_filter blocks limit filter).1 <+:
        blocks.filter (blockPasses filter) ∧
    (read_partial_data_with_max_size_limit_and_filter blocks limit filter).2 =
        sumLen
          (read_partial_data_with_max_size_limit_and_filter blocks limit filter).1 ∧
    ((read_partial_data_with_max_size_limit_and_filter blocks limit filter).1 ≠
          blocks.filter (blockPasses filter) →
        (read_partial_data_with_max_size_limit_and_filter blocks limit filter).2 ≥
          limit) ∧
    (∀ pre,
        pre <+:
          (read_partial_data_with_max_size_limit_and_filter blocks limit filter).1 →
        pre ≠
          (read_partial_data_with_max_size_limit_and_filter blocks limit filter).1 →
        sumLen pre < limit) ∧
    (limit ≤ 0 →
        (read_partial_data_with_max_size_limit_and_filter blocks limit filter).1 =
          []) := by
  unfold read_partial_data_with_max_size_limit_and_filter
  rw [readPartial_filter_eq]
  refine ⟨readPartial_none_isPrefix limit _ 0, ?_, ?_, ?_, ?_⟩
  · have := readPartial_none_size limit (blocks.filter (blockPasses filter)) 0
    omega
  · intro hne
    exact readPartial_none_stop limit _ 0 hne
  · intro pre hpre hne
    have := readPartial_none_below limit (blocks.filter (blockPasses filter)) 0
      pre hpre hne
    omega
  · intro hlim
    by_contra hne
    have := readPartial_none_below limit (blocks.filter (blockPasses filter)) 0
      [] (List.nil_prefix) (fun hcontra => hne hcontra.symm)
    simp only [sumLen, List.map_nil, List.sum_nil] at this
    omega

/-- Witness for C7's amended theorem at a concrete input: with
`max_size = 0` and one block of length 10, zero blocks come back. -/
theorem read_partial_spec_witness :
    ((0 : Int) ≤ 0) ∧
      (read_partial_data_with_max_size_limit_and_filter
        [⟨0, 0, 10, 0, 0, List.replicate 10 0⟩] 0 none).1 = [] :=
  ⟨by decide,
    (read_partial_spec [⟨0, 0, 10, 0, 0, List.replicate 10 0⟩] 0 none).2.2.2.2
      (by decide)⟩

/-- Counterexample to C7 as stated: with `max_size = 5` and a single
block of length 10, the source code returns that block (fetched size
10, exceeding the limit), whereas accumulating "until adding the next
block would exceed max_size" would return zero blocks. -/
theorem read_partial_would_exceed_cex :
    (read_partial_data_with_max_size_limit_and_filter
        [⟨0, 0, 10, 0, 0, List.replicate 10 0⟩] 5 none).1.length = 1 ∧
    (read_partial_data_with_max_size_limit_and_filter
        [⟨0, 0, 10, 0, 0, List.replicate 10 0⟩] 5 none).2 = 10 ∧
    ¬ (10 : Int) ≤ 5 ∧
    readUntilWouldExceed none 5 [⟨0, 0, 10, 0, 0, List.replicate 10 0⟩] 0 =
      ([], 0) := by decide

/-- C2 (amended): `MemoryStore::insert` appends to the buffer first and
only then moves the budget; a failing budget transfer (allocated <
size) leaves the budget untouched but the appended blocks stay in the
buffer, while a sufficient allocation applies both effects. -/
theorem memory_insert_effects (s : MemInsertState) (blocks : List Block)
    (size : Int) :
    (MemoryStore.insert s blocks size).1.buffer.staging =
        s.buffer.staging ++ blocks ∧
    (MemoryStore.insert s blocks size).1.buffer.total_size =
        s.buffer.total_size + size ∧
    (s.budget.allocated < size →
        (MemoryStore.insert s blocks size).1.budget = s.budget ∧
        (MemoryStore.insert s blocks size).2 = .error .BUDGET_UNDERFLOW) ∧
    (size ≤ s.budget.allocated →
        (MemoryStore.insert s blocks size).1.budget =
          ⟨s.budget.capacity, s.budget.allocated - size,
            s.budget.used + size, s.budget.ticket_seq⟩ ∧
        (MemoryStore.insert s blocks size).2 = .ok ()) := by
  by_cases halloc : s.budget.allocated ≥ size
  · have hmove : s.budget.move_allocated_to_used size =
        .ok ⟨s.budget.capacity, s.budget.allocated - size,
          s.budget.used + size, s.budget.ticket_seq⟩ := by
      unfold MemoryBudget.move_allocated_to_used
      rw [if_pos halloc]
    refine ⟨?_, ?_, fun h => absurd h (by omega), fun _ => ⟨?_, ?_⟩⟩ <;>
      simp [MemoryStore.insert, MemoryBuffer.append, hmove]
  · have hmove : s.budget.move_allocated_to_used size =
        .error .BUDGET_UNDERFLOW := by
      unfold MemoryBudget.move_allocated_to_used
      rw [if_neg halloc]
    refine ⟨?_, ?_, fun _ => ⟨?_, ?_⟩, fun h => absurd halloc (by omega)⟩ <;>
      simp [MemoryStore.insert, MemoryBuffer.append, hmove]

/-- Witness for C2's amended theorem at a concrete input: with
allocated = 10 and size = 10 the transfer succeeds. -/
theorem memory_insert_effects_witness :
    ((10 : Int) ≤ 10) ∧
      (MemoryStore.insert ⟨⟨100, 10, 0, 0⟩, ⟨[], 0⟩⟩ [] 10).2 = .ok () :=
  ⟨by decide,
    ((memory_insert_effects ⟨⟨100, 10, 0, 0⟩, ⟨[], 0⟩⟩ [] 10).2.2.2
      (by decide)).2⟩

/-- Counterexample to C2 as stated: inserting one block of size 10 with
nothing allocated fails the budget transfer, yet the block is left
appended in the buffer while the budget is unchanged — the two steps
are not both-or-neither. -/
theorem memory_insert_not_atomic_cex :
    ((MemoryStore.insert ⟨⟨100, 0, 0, 0⟩, ⟨[], 0⟩⟩
        [⟨0, 0, 10, 0, 0, List.replicate 10 0⟩] 10).2 =
      .error .BUDGET_UNDERFLOW) ∧
    (MemoryStore.insert ⟨⟨100, 0, 0, 0⟩, ⟨[], 0⟩⟩
        [⟨0, 0, 10, 0, 0, List.replicate 10 0⟩] 10).1.buffer.staging =
      [⟨0, 0, 10, 0, 0, List.replicate 10 0⟩] ∧
    (MemoryStore.insert ⟨⟨100, 0, 0, 0⟩, ⟨[], 0⟩⟩
        [⟨0, 0, 10, 0, 0, List.replicate 10 0⟩] 10).1.budget =
      ⟨100, 0, 0, 0⟩ := by decide

/-- C1: the ticket round trip evaluated on the store built by
`MemoryStore::from` with capacity 100.  `require_buffer(100)` succeeds
with ticket 0 and an explicit release would return exactly 100; but
when the ticket instead expires, the reaper's callback decrements
`allocated` on the budget captured in `release_allocated_func`
(memory.rs 89-91) — not on the store's own admission budget, which
`MemoryStore::from` constructs a second time (memory.rs 102).  The
admission budget therefore still shows allocated = 100 after the reap,
and a subsequent `require_buffer(100)` fails instead of succeeding. -/
theorem ticket_expiry_releases_to_wrong_budget :
    (MemoryStore.require_buffer (MemoryStore.fromConf 100) 100 "app1" 0).2 =
      .ok 0 ∧
    (TicketManager.delete
        (MemoryStore.require_buffer (MemoryStore.fromConf 100) 100 "app1" 0).1
        0).2 = .ok 100 ∧
    (MemoryStore.reapExpiredTickets
        (MemoryStore.require_buffer (MemoryStore.fromConf 100) 100 "app1" 0).1
        300 300).tickets = [] ∧
    (MemoryStore.reapExpiredTickets
        (MemoryStore.require_buffer (MemoryStore.fromConf 100) 100 "app1" 0).1
        300 300).budget.allocated = 100 ∧
    (MemoryStore.require_buffer
        (MemoryStore.reapExpiredTickets
          (MemoryStore.require_buffer (MemoryStore.fromConf 100) 100 "app1" 0).1
          300 300)
        100 "app1" 300).2 = .error .NO_ENOUGH_MEMORY_TO_BE_ALLOCATED := by
  decide

theorem buildHolders_data (next_offset : Int) (l : List Block) :
    (buildHolders next_offset l).2.1 = l.flatMap (fun b => b.data) := by
  induction l generalizing next_offset with
  | nil => rfl
  | cons b rest ih =>
    simp only [buildHolders, List.flatMap_cons, ih]

theorem buildHolders_ids (next_offset : Int) (l : List Block) :
    (buildHolders next_offset l).1.map (fun r => r.block_id) =
      l.map (fun b => b.block_id) := by
  induction l generalizing next_offset with
  | nil => rfl
  | cons b rest ih =>
    simp only [buildHolders, List.map_cons, ih]

theorem orderedInsert_all_le (a : Block) (l : List Block)
    (h : ∀ x ∈ l, taskIdLe a x) :
    List.orderedInsert taskIdLe a l = a :: l := by
  cases l with
  | nil => rfl
  | cons b t =>
    have hb : taskIdLe a b := h b (by simp)
    simp [List.orderedInsert, hb]

theorem filter_taskId_orderedInsert (t : Int) (a : Block) (l : List Block) :
    (List.orderedInsert taskIdLe a l).filter
        (fun b => decide (b.task_attempt_id = t)) =
      if a.task_attempt_id = t then
        a :: l.filter (fun b => decide (b.task_attempt_id = t))
      else l.filter (fun b => decide (b.task_attempt_id = t)) := by
  induction l with
  | nil =>
    by_cases ha : a.task_attempt_id = t <;>
      simp [List.orderedInsert, List.filter_cons, ha]
  | cons b l2 ih =>
    by_cases hab : taskIdLe a b
    · simp only [List.orderedInsert, if_pos hab, List.filter_cons]
      by_cases ha : a.task_attempt_id = t <;>
        by_cases hb : b.task_attempt_id = t <;>
          simp [ha, hb, List.filter_cons]
    · have hba : b.task_attempt_id < a.task_attempt_id := by
        simpa [taskIdLe, not_le] using hab
      simp only [List.orderedInsert, if_neg hab, List.filter_cons, ih]
      by_cases ha : a.task_attempt_id = t
      · have hb : ¬ b.task_attempt_id = t := by omega
        simp [ha, hb, List.filter_cons]
      · by_cases hb : b.task_attempt_id = t <;>
          simp [ha, hb, List.filter_cons]

theorem filter_taskId_insertionSort (t : Int) (l : List Block) :
    (List.insertionSort taskIdLe l).filter
        (fun b => decide (b.task_attempt_id = t)) =
      l.filter (fun b => decide (b.task_attempt_id = t)) := by
  induction l with
  | nil => rfl
  | cons a l2 ih =>
    have h : List.insertionSort taskIdLe (a :: l2) =
        List.orderedInsert taskIdLe a (List.insertionSort taskIdLe l2) := rfl
    rw [h, filter_taskId_orderedInsert, List.filter_cons]
    by_cases ha : a.task_attempt_id = t <;> simp [ha, ih]

theorem insertionSort_of_all_eq_taskId (l : List Block)
    (h : l.Pairwise (fun a b => a.task_attempt_id = b.task_attempt_id)) :
    List.insertionSort taskIdLe l = l := by
  induction l with
  | nil => rfl
  | cons a rest ih =>
    rw [List.pairwise_cons] at h
    obtain ⟨ha, hrest⟩ := h
    have : List.insertionSort taskIdLe (a :: rest) =
        List.orderedInsert taskIdLe a (List.insertionSort taskIdLe rest) := rfl
    rw [this, ih hrest]
    exact orderedInsert_all_le a rest
      (fun x hx => le_of_eq (ha x hx))

/-- C8 (amended): a spill flight's blocks are persisted sorted stably
by `task_attempt_id`, not in staging order: the data bytes and the
index records follow the stably re-sorted sequence, which is a
permutation of the staging sequence, is weakly sorted by task attempt
id, and preserves the staging order among blocks sharing a task
attempt id (for every id, filtering the written sequence to that id
yields exactly the staging subsequence with that id); in particular a
flight whose blocks all carry one task attempt id is written in
staging order unchanged. -/
theorem hdfs_spill_insert_order (batches : List (List Block))
    (next_offset : Int) :
    (HdfsStore.spill_insert_writes batches next_offset).2.1 =
        (List.insertionSort taskIdLe (batches.flatMap id)).flatMap
          (fun b => b.data) ∧
    (HdfsStore.spill_insert_writes batches next_offset).1.map
          (fun r => r.block_id) =
        (List.insertionSort taskIdLe (batches.flatMap id)).map
          (fun b => b.block_id) ∧
    List.insertionSort taskIdLe (batches.flatMap id) ~ batches.flatMap id ∧
    (List.insertionSort taskIdLe (batches.flatMap id)).Sorted taskIdLe ∧
    (∀ t : Int,
        (List.insertionSort taskIdLe (batches.flatMap id)).filter
            (fun b => decide (b.task_attempt_id = t)) =
          (batches.flatMap id).filter
            (fun b => decide (b.task_attempt_id = t))) ∧
    ((batches.flatMap id).Pairwise
          (fun a b => a.task_attempt_id = b.task_attempt_id) →
        List.insertionSort taskIdLe (batches.flatMap id) =
          batches.flatMap id) :=
  ⟨buildHolders_data next_offset _, buildHolders_ids next_offset _,
    List.perm_insertionSort taskIdLe _,
    List.sorted_insertionSort taskIdLe _,
    fun t => filter_taskId_insertionSort t _,
    fun h => insertionSort_of_all_eq_taskId _ h⟩

/-- Witness for C8's amended theorem: a flight whose two blocks share
task attempt id 7 is written in staging order. -/
theorem hdfs_spill_insert_order_witness :
    (([[Block.mk 1 7 1 0 0 [1], Block.mk 2 7 1 0 0 [2]]] : List (List Block)).flatMap
          id).Pairwise (fun a b => a.task_attempt_id = b.task_attempt_id) ∧
      List.insertionSort taskIdLe
          (([[Block.mk 1 7 1 0 0 [1], Block.mk 2 7 1 0 0 [2]]] :
            List (List Block)).flatMap id) =
        ([[Block.mk 1 7 1 0 0 [1], Block.mk 2 7 1 0 0 [2]]] :
          List (List Block)).flatMap id :=
  ⟨by decide,
    (hdfs_spill_insert_order [[Block.mk 1 7 1 0 0 [1], Block.mk 2 7 1 0 0 [2]]]
      0).2.2.2.2.2 (by decide)⟩

/-- Counterexample to C8 as stated: a flight staged as
[block id 1 / task 2, block id 2 / task 1] is written to the data file
as [task 1's bytes, task 2's bytes] — not in staging order. -/
theorem hdfs_spill_insert_reorders_cex :
    (HdfsStore.spill_insert_writes
        [[Block.mk 1 2 1 0 0 [1], Block.mk 2 1 1 0 0 [2]]] 0).2.1 = [2, 1] ∧
    ((([[Block.mk 1 2 1 0 0 [1], Block.mk 2 1 1 0 0 [2]]] :
        List (List Block)).flatMap id).flatMap (fun b => b.data)) = [1, 2] ∧
    (HdfsStore.spill_insert_writes
        [[Block.mk 1 2 1 0 0 [1], Block.mk 2 1 1 0 0 [2]]] 0).2.1 ≠
      (([[Block.mk 1 2 1 0 0 [1], Block.mk 2 1 1 0 0 [2]]] :
        List (List Block)).flatMap id).flatMap (fun b => b.data) := by
  decide

theorem capacity_check_corrupted (p : DiskParams) (env : CheckEnv)
    (s : DiskState) : (capacity_check p env s).corrupted = s.corrupted := by
  unfold capacity_check
  cases env.capacity with
  | none => rfl
  | some capacity =>
    cases env.available with
    | none => rfl
    | some available =>
      dsimp only
      split <;> split <;> rfl

/-- C9: disk corruption is sticky.  Once `corrupted = true`, a checker
iteration changes nothing (the loop `continue`s before both checks), so
the whole remaining run leaves the state untouched; and from a
non-corrupted state, any canary iteration that mismatches or errors
sets `corrupted := true`. -/
theorem disk_corruption_sticky (p : DiskParams) (env : CheckEnv)
    (envs : List CheckEnv) (s : DiskState) :
    (s.corrupted = true → schedule_check_step p env s = s) ∧
    (s.corrupted = true → schedule_check_run p envs s = s) ∧
    (s.corrupted = false → env.canary ≠ some true →
        (schedule_check_step p env s).corrupted = true) := by
  refine ⟨?_, ?_, ?_⟩
  · intro h
    unfold schedule_check_step
    rw [if_pos h]
  · intro h
    induction envs with
    | nil => rfl
    | cons e rest ih =>
      unfold schedule_check_run at ih ⊢
      simp only [List.foldl_cons]
      rw [show schedule_check_step p e s = s from by
        unfold schedule_check_step; rw [if_pos h]]
      exact ih
  · intro h hc
    unfold schedule_check_step
    rw [if_neg (by simp [h])]
    unfold write_read_check
    rcases hcan : env.canary with - | b
    · rfl
    · cases b with
      | false => rfl
      | true => exact absurd hcan hc

/-- Witness for C9 at a concrete input: a corrupted state survives a
two-iteration run unchanged. -/
theorem disk_corruption_sticky_witness :
    ((DiskState.mk true true).corrupted = true) ∧
      schedule_check_run (DiskParams.mk (8/10) (2/10))
        [CheckEnv.mk (some 100) (some 1) (some true),
          CheckEnv.mk (some 100) (some 99) (some false)]
        (DiskState.mk true true) = DiskState.mk true true :=
  ⟨rfl,
    (disk_corruption_sticky (DiskParams.mk (8/10) (2/10))
      (CheckEnv.mk (some 100) (some 1) (some true))
      [CheckEnv.mk (some 100) (some 1) (some true),
        CheckEnv.mk (some 100) (some 99) (some false)]
      (DiskState.mk true true)).2.1 rfl⟩

/-- C10: the quantity the hybrid write path compares against the high
watermark is `(used + allocated − in-flight) / capacity` (f32 modelled
as exact rationals): it differs from `used / capacity` exactly when
`allocated ≠ in-flight`; publishing flights of `flushed` bytes
(`inc_inflight` at the end of `watermark_spill`) lowers it by
`flushed / capacity` while leaving `used` untouched; and a successful
spill (`release_data_in_memory`) leaves it unchanged, since `used` and
the in-flight counter drop together. -/
theorem usage_fraction_spec (s : HotStoreState) (flushed d : Nat)
    (high_watermark : ℚ) (hcap : 0 < s.capacity)
    (hd : d ≤ s.in_flush_buffer_size) :
    (hybridSpillTriggered s high_watermark ↔
        ((s.used + s.allocated - (s.in_flush_buffer_size : Int) : Int) : ℚ) /
          (s.capacity : ℚ) > high_watermark) ∧
    (calculate_usage_fraction s = (s.used : ℚ) / (s.capacity : ℚ) ↔
        (s.allocated : Int) = (s.in_flush_buffer_size : Int)) ∧
    (calculate_usage_fraction (afterWatermarkPublish s flushed) =
        calculate_usage_fraction s - (flushed : ℚ) / (s.capacity : ℚ)) ∧
    ((afterWatermarkPublish s flushed).used = s.used) ∧
    (calculate_usage_fraction (release_data_in_memory s d) =
        calculate_usage_fraction s) := by
  have hc : ((s.capacity : Int) : ℚ) ≠ 0 := by
    rw [Int.cast_ne_zero]
    omega
  refine ⟨Iff.rfl, ?_, ?_, rfl, ?_⟩
  · unfold calculate_usage_fraction
    rw [div_eq_div_iff hc hc, mul_left_inj' hc, Int.cast_inj]
    constructor <;> (intro h; omega)
  · unfold calculate_usage_fraction afterWatermarkPublish
    rw [div_sub_div_same]
    congr 1
    push_cast
    ring
  · unfold calculate_usage_fraction release_data_in_memory
    congr 2
    push_cast [hd]
    ring

theorem selectTier_exceed (warm_store cold_store : Option PStore)
    (thr : Option Nat) (msg : SpillMessage) (h : msg.retry_cnt > 3) :
    selectTier warm_store cold_store thr msg =
      .error (.SPILL_EVENT_EXCEED_RETRY_MAX_LIMIT msg.app_id) := by
  unfold selectTier
  rw [if_pos h]
  rfl

theorem selectTier_isOk (w : PStore) (cold_store : Option PStore)
    (thr : Option Nat) (msg : SpillMessage) (b : Bool)
    (hcnt : msg.retry_cnt ≤ 3) (hb : w.healthy = .ok b) :
    ∃ st, selectTier (some w) cold_store thr msg = .ok st := by
  have hng : ¬ msg.retry_cnt > 3 := by omega
  by_cases h1 : msg.retry_cnt ≥ 1
  · exact ⟨cold_store.getD w, by
      simp [selectTier, hng, hb, h1, bind, Except.bind, pure, Except.pure]⟩
  · cases b with
    | true =>
      by_cases h2 : thr.getD (2 ^ 64 - 1) < u64cast msg.size
      · refine ⟨cold_store.getD w, ?_⟩
        simp only [selectTier, hng, hb, h1, bind, Except.bind, pure,
          Except.pure, if_false, ite_false, if_true, ite_true,
          Except.ok.injEq]
        norm_num
        intro hcontra
        norm_num at h2
        exact absurd h2 (not_lt.mpr hcontra)
      · refine ⟨w, ?_⟩
        simp only [selectTier, hng, hb, h1, bind, Except.bind, pure,
          Except.pure, if_false, ite_false, if_true, ite_true,
          Except.ok.injEq]
        norm_num
        intro hcontra
        norm_num at h2
        exact absurd hcontra (not_lt.mpr h2)
    | false =>
      exact ⟨cold_store.getD w, by
        simp [selectTier, hng, hb, h1, bind, Except.bind, pure, Except.pure]⟩

theorem handle_fail_republish (w : PStore) (cold_store : Option PStore)
    (thr : Option Nat) (msg : SpillMessage) (st : PStore)
    (s : SpillSystemState)
    (hsel : selectTier (some w) cold_store thr msg = .ok st) :
    handleSpillMessage (some w) cold_store thr false msg s =
      ⟨s.queue ++ [⟨msg.app_id, msg.size, msg.retry_cnt + 1, msg.flight_id⟩],
        s.used, s.flight_resident, s.error_sink, s.write_attempts + 1⟩ := by
  unfold handleSpillMessage memory_spill_to_persistent_store
  rw [hsel]
  simp

theorem handle_exceed_surfaces (warm_store cold_store : Option PStore)
    (thr : Option Nat) (writeOk : Bool) (msg : SpillMessage)
    (s : SpillSystemState) (h : msg.retry_cnt > 3) :
    handleSpillMessage warm_store cold_store thr writeOk msg s =
      ⟨s.queue, s.used, s.flight_resident, s.error_sink ++ [msg.app_id],
        s.write_attempts⟩ := by
  unfold handleSpillMessage memory_spill_to_persistent_store
  rw [selectTier_exceed warm_store cold_store thr msg h]
  simp

/-- C4: spill retry exhaustion, for a configured warm store whose
health check reports some boolean.  Any write failure of a message with
`retry_cnt < 3` re-publishes it with `retry_cnt + 1`, leaving `used`,
the flight residency and the error sink untouched; and pumping a
fresh message (`retry_cnt = 0`) through the handler five times under an
always-failing writer makes exactly four persistent-tier write
attempts, then surfaces `SPILL_EXCEED_RETRY_MAX_LIMIT` with the
message's `app_id` on the fifth pump without a further write attempt,
with the flight still resident and `used` unchanged. -/
theorem spill_retry_exhaustion (w : PStore) (cold_store : Option PStore)
    (thr : Option Nat) (b : Bool) (msg : SpillMessage)
    (s : SpillSystemState) (hb : w.healthy = Except.ok b)
    (hq : s.queue = [msg]) (h0 : msg.retry_cnt = 0) :
    (∀ (msg2 : SpillMessage) (s2 : SpillSystemState), msg2.retry_cnt < 3 →
        handleSpillMessage (some w) cold_store thr false msg2 s2 =
          ⟨s2.queue ++
              [⟨msg2.app_id, msg2.size, msg2.retry_cnt + 1, msg2.flight_id⟩],
            s2.used, s2.flight_resident, s2.error_sink,
            s2.write_attempts + 1⟩) ∧
    spillPump (some w) cold_store thr false
        (spillPump (some w) cold_store thr false
          (spillPump (some w) cold_store thr false
            (spillPump (some w) cold_store thr false
              (spillPump (some w) cold_store thr false s)))) =
      ⟨[], s.used, s.flight_resident, s.error_sink ++ [msg.app_id],
        s.write_attempts + 4⟩ := by
  constructor
  · intro msg2 s2 hlt
    obtain ⟨st, hst⟩ := selectTier_isOk w cold_store thr msg2 b
      (by omega) hb
    exact handle_fail_republish w cold_store thr msg2 st s2 hst
  · obtain ⟨q, u, fl, es, wa⟩ := s
    obtain ⟨app, sz, rc, fid⟩ := msg
    simp only at hq h0 ⊢
    subst h0
    subst hq
    have step : ∀ (k x : Nat), k ≤ 3 →
        spillPump (some w) cold_store thr false
            ⟨[⟨app, sz, k, fid⟩], u, fl, es, x⟩ =
          ⟨[⟨app, sz, k + 1, fid⟩], u, fl, es, x + 1⟩ := by
      intro k x hk
      obtain ⟨st, hst⟩ := selectTier_isOk w cold_store thr
        ⟨app, sz, k, fid⟩ b hk hb
      show handleSpillMessage (some w) cold_store thr false
          ⟨app, sz, k, fid⟩ ⟨[], u, fl, es, x⟩ = _
      rw [handle_fail_republish w cold_store thr _ st _ hst]
      rfl
    calc spillPump (some w) cold_store thr false
          (spillPump (some w) cold_store thr false
            (spillPump (some w) cold_store thr false
              (spillPump (some w) cold_store thr false
                (spillPump (some w) cold_store thr false
                  ⟨[⟨app, sz, 0, fid⟩], u, fl, es, wa⟩))))
        = spillPump (some w) cold_store thr false
            (spillPump (some w) cold_store thr false
              (spillPump (some w) cold_store thr false
                (spillPump (some w) cold_store thr false
                  ⟨[⟨app, sz, 1, fid⟩], u, fl, es, wa + 1⟩))) := by
          rw [step 0 wa (by omega)]
      _ = spillPump (some w) cold_store thr false
            (spillPump (some w) cold_store thr false
              (spillPump (some w) cold_store thr false
                ⟨[⟨app, sz, 2, fid⟩], u, fl, es, wa + 2⟩)) := by
          rw [step 1 (wa + 1) (by omega)]
      _ = spillPump (some w) cold_store thr false
            (spillPump (some w) cold_store thr false
              ⟨[⟨app, sz, 3, fid⟩], u, fl, es, wa + 3⟩) := by
          rw [step 2 (wa + 2) (by omega)]
      _ = spillPump (some w) cold_store thr false
            ⟨[⟨app, sz, 4, fid⟩], u, fl, es, wa + 4⟩ := by
          rw [step 3 (wa + 3) (by omega)]
      _ = ⟨[], u, fl, es ++ [app], wa + 4⟩ := by
          show handleSpillMessage (some w) cold_store thr false
              ⟨app, sz, 4, fid⟩ ⟨[], u, fl, es, wa + 4⟩ = _
          rw [handle_exceed_surfaces (some w) cold_store thr false
            ⟨app, sz, 4, fid⟩ ⟨[], u, fl, es, wa + 4⟩ (by norm_num)]

/-- Witness for C4 at a concrete input: warm healthy, no cold store, no
threshold, one fresh message for app "a1" of size 5; five pumps of an
always-failing writer end with the app surfaced in the error sink, the
flight resident, used unchanged and four write attempts made. -/
theorem spill_retry_exhaustion_witness :
    ((PStore.mk (.ok true) .LOCALFILE).healthy = Except.ok true ∧
        (SpillSystemState.mk [SpillMessage.mk "a1" 5 0 0] 9 true [] 0).queue =
          [SpillMessage.mk "a1" 5 0 0] ∧
        (SpillMessage.mk "a1" 5 0 0).retry_cnt = 0) ∧
      spillPump (some (PStore.mk (.ok true) .LOCALFILE)) none none false
          (spillPump (some (PStore.mk (.ok true) .LOCALFILE)) none none false
            (spillPump (some (PStore.mk (.ok true) .LOCALFILE)) none none false
              (spillPump (some (PStore.mk (.ok true) .LOCALFILE)) none none
                false
                (spillPump (some (PStore.mk (.ok true) .LOCALFILE)) none none
                  false
                  (SpillSystemState.mk [SpillMessage.mk "a1" 5 0 0] 9 true []
                    0))))) =
        SpillSystemState.mk [] 9 true ["a1"] 4 :=
  ⟨⟨rfl, rfl, rfl⟩,
    (spill_retry_exhaustion (PStore.mk (.ok true) .LOCALFILE) none none true
      (SpillMessage.mk "a1" 5 0 0)
      (SpillSystemState.mk [SpillMessage.mk "a1" 5 0 0] 9 true [] 0)
      rfl rfl rfl).2⟩

/-- Witness for C10 at a concrete input: capacity 100, allocated 10,
used 50, 5 bytes in flight, publishing 7 more bytes. -/
theorem usage_fraction_spec_witness :
    ((0 : Int) < 100) ∧ (3 ≤ 5) ∧
      calculate_usage_fraction
          (afterWatermarkPublish (HotStoreState.mk 100 10 50 5) 7) =
        calculate_usage_fraction (HotStoreState.mk 100 10 50 5) -
          (7 : ℚ) / ((100 : Int) : ℚ) :=
  ⟨by decide, by decide,
    (usage_fraction_spec (HotStoreState.mk 100 10 50 5) 7 3 (8/10)
      (by decide) (by decide)).2.2.1⟩

end R1
